import Mathlib

/-!
Verification of the go-bayesopt repository: a shallow embedding of the
Gaussian-process model (`gp/gp.go`, `gp/cov.go`), the parameter sampler
(`params.go`), the UCB exploration strategy (`exploration.go`) and the
round controller (`bayesopt.go`), together with theorems settling the
frozen claims about the natural-language specification.

Modelling conventions:
* Go `float64` values flowing through the GP code are modelled by `F`,
  a rational number or the single non-finite marker `F.nan`.
* Calls into external libraries (gonum's `math.Sqrt`, `math.Exp`,
  `mat.Cholesky.Factorize`, `mat.Cholesky.SolveVecTo`) are abstracted as
  an `Oracle` record of function parameters; theorems quantify over all
  oracles, so they hold whatever the numeric library returns.
* Go panics (zero-size matrix allocation, nil dereference, empty-slice
  index) are modelled by distinguished result values, never by errors
  that the Go code would actually return.
-/

namespace GoBayesopt

/-- Model of a Go `float64` as it is used by this code: either a finite
rational or `nan`, a single marker standing for every non-finite IEEE
value. The modelled code paths create non-finite values only via 0/0
(which is NaN) and propagate them through `+`, `-`, `*`, `/`, `sqrt`,
for which NaN is absorbing exactly as modelled here. -/
inductive F where
  | fin (q : ℚ)
  | nan
deriving DecidableEq

/-- IEEE addition restricted to the modelled values: finite plus finite
is exact, any non-finite operand propagates. -/
def fadd : F → F → F
  | .fin a, .fin b => .fin (a + b)
  | _, _ => .nan

/-- IEEE subtraction on the modelled values. -/
def fsub : F → F → F
  | .fin a, .fin b => .fin (a - b)
  | _, _ => .nan

/-- IEEE multiplication on the modelled values. -/
def fmul : F → F → F
  | .fin a, .fin b => .fin (a * b)
  | _, _ => .nan

/-- IEEE division on the modelled values. Division by a finite zero is
non-finite (0/0 is NaN, the only zero-divisor case these code paths
reach; a nonzero numerator would give ±Inf, which propagates through
the remaining operations the same way). -/
def fdiv : F → F → F
  | .fin a, .fin b => if b = 0 then .nan else .fin (a / b)
  | _, _ => .nan

/-- IEEE `<` comparison: false whenever an operand is non-finite (NaN
comparisons are false). -/
def flt : F → F → Bool
  | .fin a, .fin b => decide (a < b)
  | _, _ => false

/-- IEEE `<=` comparison: false whenever an operand is non-finite (NaN
comparisons are false). -/
def fle : F → F → Bool
  | .fin a, .fin b => decide (a ≤ b)
  | _, _ => false

/-- IEEE `>=` comparison: false whenever an operand is non-finite (NaN
comparisons are false). -/
def fge : F → F → Bool
  | .fin a, .fin b => decide (b ≤ a)
  | _, _ => false

/-- Model of Go `math.Max`: the larger finite argument; NaN (any
non-finite operand in the modelled value space) propagates, as
`math.Max(NaN, y) = math.Max(x, NaN) = NaN`. -/
def fmaxG : F → F → F
  | .fin a, .fin b => .fin (max a b)
  | _, _ => .nan

/-- Model of Go `math.Min`: the smaller finite argument; NaN
propagates, as `math.Min(NaN, y) = math.Min(x, NaN) = NaN`. -/
def fminG : F → F → F
  | .fin a, .fin b => .fin (min a b)
  | _, _ => .nan

/-- Running left-to-right sum, as the Go loops accumulate it. -/
def fsum (l : List F) : F := l.foldl fadd (.fin 0)

/-- Dot product (`mat.Dot`) of two equally long vectors. -/
def fdot (a b : List F) : F := fsum (List.zipWith fmul a b)

/-- Outcome of `mat.Cholesky.SolveVecTo`: a solution, a solution
accompanied by a `mat.Condition` (ill-conditioned) error, or a
non-condition error. -/
inductive SolveOutcome where
  | ok (v : List F)
  | condition (v : List F)
  | failed
deriving DecidableEq

/-- External numeric primitives used by the GP code, abstracted as
parameters: `math.Sqrt` and `math.Exp` on finite arguments (the result
may be non-finite, e.g. the square root of a negative number),
`mat.Cholesky.Factorize`'s success flag on a given matrix, and
`mat.Cholesky.SolveVecTo` on a factorized matrix and right-hand side. -/
structure Oracle where
  sqrtF : ℚ → F
  expF : ℚ → F
  factorize : List (List F) → Bool
  solve : List (List F) → List F → SolveOutcome

/-- IEEE square root via the oracle; NaN propagates. -/
def fsqrtO (or : Oracle) : F → F
  | .fin q => or.sqrtF q
  | .nan => .nan

/-- IEEE exponential via the oracle; NaN propagates. -/
def fexpO (or : Oracle) : F → F
  | .fin q => or.expF q
  | .nan => .nan

/-- Negation, as in `-math.Sqrt(5)`. -/
def fneg : F → F
  | .fin q => .fin (-q)
  | .nan => .nan

/-- Errors surfaced (or panics reached) by the GP operations.
`factorizeFailed` models the sentinel `ErrFactorizeFailed` (wrapping by
`errors.Wrap` preserves the cause's identity, so a wrapped value is
still this constructor); `solveAlphaFailed` and `solveVFailed` model
the two non-condition solver failures; `panicked` models a Go panic
(zero-size allocation or nil dereference), which is not a returned
error. -/
inductive GPErr where
  | factorizeFailed
  | solveAlphaFailed
  | solveVFailed
  | panicked
deriving DecidableEq

/-- State of `gp.GP` (gp/gp.go): the observation set, the covariance
function and noise, and the derived quantities `alpha`, `l` (the
factorized kernel matrix, `none` when never factorized), the training
output statistics `mean`/`stddev`, the count `n` at the last refit and
the `dirty` flag. The plotting-only name fields are omitted. -/
structure GP where
  inputs : List (List F)
  outputs : List F
  cov : List F → List F → F
  noise : F
  alpha : List F
  l : Option (List (List F))
  mean : F
  stddev : F
  n : ℕ
  dirty : Bool

/-- Model of `gp.New`: zero values for every derived field. -/
def gpNew (cov : List F → List F → F) (noise : F) : GP :=
  { inputs := [], outputs := [], cov := cov, noise := noise,
    alpha := [], l := none, mean := .fin 0, stddev := .fin 0,
    n := 0, dirty := false }

/-- Model of `GP.Add`: set `dirty`, append the pair. There is no
dimensionality check and no error return in the source. -/
def gpAdd (g : GP) (x : List F) (y : F) : GP :=
  { g with dirty := true, inputs := g.inputs ++ [x], outputs := g.outputs ++ [y] }

/-- Model of `GP.Dims`: the length of the first observation, 0 when
there is none. -/
def gpDims (g : GP) : ℕ :=
  match g.inputs with
  | [] => 0
  | x :: _ => x.length

/-- Entry (i, j) of the kernel matrix built by `compute`: the source
fills a `mat.SymDense` for i ≤ j with `cov(inputs[i], inputs[j])` plus
`noise` on the diagonal, and the symmetric type mirrors (j, i), hence
the `min`/`max`. -/
def kEntry (g : GP) (i j : ℕ) : F :=
  fadd (g.cov (g.inputs.getD (min i j) []) (g.inputs.getD (max i j) []))
    (if i = j then g.noise else .fin 0)

/-- The n×n kernel-plus-noise matrix of `compute`, as rows. -/
def kernelMatrix (g : GP) : List (List F) :=
  (List.range g.inputs.length).map
    (fun i => (List.range g.inputs.length).map (fun j => kEntry g i j))

/-- Model of gonum `stat.MeanStdDev`: the sample mean and the unbiased
sample standard deviation, i.e. the square root of the squared
deviations summed and divided by n − 1 (gonum's compensation term is
exactly zero in exact arithmetic). For a single output the divisor is
zero, so the standard deviation is NaN. -/
def meanStdDev (or : Oracle) (ys : List F) : F × F :=
  let nf : F := .fin (ys.length : ℚ)
  let mean := fdiv (fsum ys) nf
  let variance :=
    fdiv (fsum (ys.map (fun v => fmul (fsub v mean) (fsub v mean))))
      (fsub nf (.fin 1))
  (mean, fsqrtO or variance)

/-- Model of `GP.normOutputs`: store the output statistics in the GP and
return the standardized outputs. -/
def normOutputs (or : Oracle) (g : GP) : GP × List F :=
  let ms := meanStdDev or g.outputs
  ({ g with mean := ms.1, stddev := ms.2 },
    g.outputs.map (fun v => fdiv (fsub v ms.1) ms.2))

/-- Model of `GP.compute` (gp/gp.go). The Go function opens with
`defer func() { gp.dirty = false }()`, so every exit path below — the
factorize failure included — clears `dirty`. With no observation,
`mat.NewSymDense(0, nil)` panics. `normOutputs` runs only after a
successful factorization; a `mat.Condition` error from the solve is
accepted. -/
def compute (or : Oracle) (g : GP) : Option GPErr × GP :=
  let n := g.inputs.length
  if n = 0 then (some .panicked, { g with dirty := false })
  else
    let k := kernelMatrix g
    if or.factorize k = false then
      (some .factorizeFailed, { g with dirty := false })
    else
      let nb := normOutputs or g
      match or.solve k nb.2 with
      | .failed => (some .solveAlphaFailed, { nb.1 with dirty := false })
      | .ok alpha =>
          (none, { nb.1 with alpha := alpha, l := some k, n := n, dirty := false })
      | .condition alpha =>
          (none, { nb.1 with alpha := alpha, l := some k, n := n, dirty := false })

/-- Model of `GP.Estimate` (gp/gp.go): refit when dirty, then compute
the posterior mean `k*ᵀα·stddev + mean` and standard deviation
`√(cov(x,x) − k*ᵀv)` with `v` solved from the stored factorization.
With `n = 0` the `mat.NewVecDense(0, nil)` allocation panics; a nil
stored factorization dereference also panics. The mutated GP is
returned alongside the result, as the Go method mutates its receiver. -/
def estimate (or : Oracle) (g0 : GP) (x : List F) : Except GPErr (F × F) × GP :=
  let cg := if g0.dirty then compute or g0 else (none, g0)
  match cg.1 with
  | some e => (.error e, cg.2)
  | none =>
    let g := cg.2
    if g.n = 0 then (.error .panicked, g)
    else
      let kstar := (g.inputs.take g.n).map (fun xi => g.cov xi x)
      let mean := fadd (fmul (fdot kstar g.alpha) g.stddev) g.mean
      match g.l with
      | none => (.error .panicked, g)
      | some lm =>
        match or.solve lm kstar with
        | .failed => (.error .solveVFailed, g)
        | .ok v =>
            (.ok (mean, fsqrtO or (fsub (g.cov x x) (fdot kstar v))), g)
        | .condition v =>
            (.ok (mean, fsqrtO or (fsub (g.cov x x) (fdot kstar v))), g)

/-- Index scan of gonum `floats.MinIdx`: skip NaN entries, track the
first strictly smaller value; `cur = nan` is the initial
`min := math.NaN()` state, replaced by the first finite entry. -/
def minIdxAux : List F → ℕ → ℕ → F → ℕ
  | [], _, best, _ => best
  | v :: rest, i, best, cur =>
    match v, cur with
    | .nan, _ => minIdxAux rest (i + 1) best cur
    | .fin q, .nan => minIdxAux rest (i + 1) i (.fin q)
    | .fin q, .fin c =>
        if q < c then minIdxAux rest (i + 1) i (.fin q)
        else minIdxAux rest (i + 1) best (.fin c)

/-- Model of gonum `floats.MinIdx`: panics (`none`) on an empty slice. -/
def minIdx : List F → Option ℕ
  | [] => none
  | v :: rest => some (minIdxAux (v :: rest) 0 0 .nan)

/-- Index scan of gonum `floats.MaxIdx`, symmetric to `minIdxAux`. -/
def maxIdxAux : List F → ℕ → ℕ → F → ℕ
  | [], _, best, _ => best
  | v :: rest, i, best, cur =>
    match v, cur with
    | .nan, _ => maxIdxAux rest (i + 1) best cur
    | .fin q, .nan => maxIdxAux rest (i + 1) i (.fin q)
    | .fin q, .fin c =>
        if q > c then maxIdxAux rest (i + 1) i (.fin q)
        else maxIdxAux rest (i + 1) best (.fin c)

/-- Model of gonum `floats.MaxIdx`: panics (`none`) on an empty slice. -/
def maxIdx : List F → Option ℕ
  | [] => none
  | v :: rest => some (maxIdxAux (v :: rest) 0 0 .nan)

/-- Model of `GP.Minimum`: index the extreme output; `none` is the
panic of `floats.MinIdx` on an empty observation set. -/
def gpMinimum (g : GP) : Option (List F × F) :=
  (minIdx g.outputs).map (fun i => (g.inputs.getD i [], g.outputs.getD i (.fin 0)))

/-- Model of `GP.Maximum`, symmetric to `gpMinimum`. -/
def gpMaximum (g : GP) : Option (List F × F) :=
  (maxIdx g.outputs).map (fun i => (g.inputs.getD i [], g.outputs.getD i (.fin 0)))

/-- Model of `UCB.Estimate` (exploration.go): query the GP and fold the
posterior into `mean − κ·sd` when minimizing, `mean + κ·sd` otherwise;
an error from `gp.Estimate` is returned as is (with 0 as the value,
modelled by the `Except` error branch). The mutated GP is threaded
through, as the pointer receiver may refit. -/
def ucbEstimate (or : Oracle) (kappa : F) (g : GP) (minimize : Bool)
    (x : List F) : Except GPErr F × GP :=
  match estimate or g x with
  | (.error e, g1) => (.error e, g1)
  | (.ok ms, g1) =>
      (.ok (if minimize then fsub ms.1 (fmul kappa ms.2)
            else fadd ms.1 (fmul kappa ms.2)), g1)

/-- Inner loop of `truncateSample` (params.go): `k` draws remain, `i`
draws were already made (the draw stream `f` is indexed by draw count,
modelling the impure `func() float64`), `s` is the Go `sample`
variable (zero-initialized). Returns the sample and the number of
draws made. The acceptance test `sample >= min && sample <= max` uses
IEEE comparisons (false on NaN), and on exhaustion the last draw is
clamped by `math.Min(math.Max(sample, min), max)`, which propagates
NaN. -/
def truncAux (lo hi : F) (f : ℕ → F) : ℕ → ℕ → F → F × ℕ
  | 0, i, s => (fminG (fmaxG s lo) hi, i)
  | k + 1, i, _ =>
      if fge (f i) lo && fle (f i) hi then (f i, i + 1)
      else truncAux lo hi f k (i + 1) (f i)

/-- Model of `truncateSample` (params.go) with the tries budget (the
module variable `SampleTries`) explicit. -/
def truncateSample (lo hi : F) (f : ℕ → F) (tries : ℕ) : F × ℕ :=
  truncAux lo hi f tries 0 (.fin 0)

/-- Model of the module variable `SampleTries` (params.go), default
1000. -/
def sampleTries : ℕ := 1000

/-- Association-list lookup for the Go `map[Param]float64`, keyed by
parameter identity (modelled as ℕ). -/
def lookupP (p : ℕ) : List (ℕ × F) → Option F
  | [] => none
  | kv :: rest => if kv.1 = p then some kv.2 else lookupP p rest

/-- Go map indexing `x[p]`: the zero value 0 when the key is absent. -/
def lookup0 (m : List (ℕ × F)) (p : ℕ) : F := (lookupP p m).getD (.fin 0)

/-- Model of gonum `floats.Distance(a, b, 2)`: the Euclidean distance
(lengths are assumed equal; gonum panics otherwise). -/
def distF (or : Oracle) (a b : List F) : F :=
  fsqrtO or (fsum ((List.zipWith fsub a b).map (fun v => fmul v v)))

/-- Model of `MaternCov.Cov` (gp/cov.go) over the float model, with the
library primitives supplied by the oracle:
`(1 + √5·d/p + 5·d·d/(3·p·p)) · exp(−√5·d/p)` with `p = 2`. -/
def maternCovF (or : Oracle) (a b : List F) : F :=
  let s5 := or.sqrtF 5
  let d := distF or a b
  fmul
    (fadd (fadd (.fin 1) (fdiv (fmul s5 d) (.fin 2)))
      (fdiv (fmul (.fin 5) (fmul d d)) (.fin 12)))
    (fexpO or (fdiv (fmul (fneg s5) d) (.fin 2)))

/-- Identity of an exploration-phase error; only identity matters to
the controller, so an opaque index models it. -/
abbrev ExpErr : Type := ℕ

/-- State of `Optimizer` (bayesopt.go): the GP, the parameter list (by
identity), the three counters, the minimize flag, the sticky
`explorationErr` and the running flag. Go `int` counters are modelled
by ℤ. The exploration strategy and barrier function fields are fixed
to the defaults the claims are about. -/
structure Opt where
  gp : GP
  params : List ℕ
  round : ℤ
  randomRounds : ℤ
  rounds : ℤ
  minimize : Bool
  explorationErr : Option ExpErr
  running : Bool

/-- Model of `New` (bayesopt.go): the GP is `gp.New(gp.MaternCov{}, 0)`
and the counters take their defaults (`DefaultRandomRounds = 5`,
`DefaultRounds = 20`, `DefaultMinimize = true`). -/
def newOpt (or : Oracle) (params : List ℕ) : Opt :=
  { gp := gpNew (maternCovF or) (.fin 0), params := params,
    round := 0, randomRounds := 5, rounds := 20, minimize := true,
    explorationErr := none, running := false }

/-- Model of the `WithRounds` option. -/
def withRounds (r : ℤ) (o : Opt) : Opt := { o with rounds := r }

/-- Model of the `WithRandomRounds` option. -/
def withRandomRounds (r : ℤ) (o : Opt) : Opt := { o with randomRounds := r }

/-- Model of the `WithMinimize` option. -/
def withMinimize (m : Bool) (o : Opt) : Opt := { o with minimize := m }

/-- Outcome of one model-driven round of `Next`, abstracting the gonum
global/local optimization: `globalErr` is `optimize.Global` returning
an error (Next returns that error, state untouched); `fatal` is a
fatal local-phase or acquisition error recorded into the sticky
`explorationErr` during the round; `found` is a successful round
yielding the argmin vector. -/
inductive ExploreOutcome where
  | globalErr (e : ExpErr)
  | fatal (e : ExpErr)
  | found (minX : List F)

/-- Per-call environment of the controller: the vector drawn by
`sampleParams` on the t-th call, the abstracted model-driven outcome on
the t-th call, whether `Stop` has been observed before the t-th loop
iteration of `Optimize`, and the user objective. -/
structure Env where
  sample : ℕ → List F
  explore : ℕ → ExploreOutcome
  stop : ℕ → Bool
  f : List (ℕ × F) → F

/-- The `map[Param]float64` built by zipping the parameter identities
with a coordinate vector, as `Next` and `Optimize` build theirs. -/
def mkMap (ps : List ℕ) (v : List F) : List (ℕ × F) := ps.zip v

/-- Model of `Optimizer.Next` (bayesopt.go) at controller time `t`.
Returns `(x, parallel, err)` and the successor state. Control flow of
the source: return nothing once `round ≥ rounds` or the sticky
`explorationErr` is set; during warm-up (`round < randomRounds`) sample
a point, advance `round`, and report parallel unless the incremented
counter just reached `randomRounds`; otherwise run the (abstracted)
global-plus-local acquisition optimization, which either errors out of
`optimize.Global`, records a sticky exploration error and reports no
point, or advances `round` and returns the argmin sequentially. -/
def next (e : Env) (t : ℕ) (o : Opt) :
    (Option (List (ℕ × F)) × Bool × Option ExpErr) × Opt :=
  if o.round ≥ o.rounds ∨ o.explorationErr ≠ none then ((none, false, none), o)
  else if o.round < o.randomRounds then
    ((some (mkMap o.params (e.sample t)), !(decide (o.round + 1 = o.randomRounds)), none),
      { o with round := o.round + 1 })
  else
    match e.explore t with
    | .globalErr err => ((none, false, some err), o)
    | .fatal err => ((none, false, none), { o with explorationErr := some err })
    | .found minX =>
        ((some (mkMap o.params minX), false, none), { o with round := o.round + 1 })

/-- Model of `Optimizer.Log` (bayesopt.go): build the input vector by
indexing the supplied map at each parameter in construction order (a
missing key reads the map's zero value 0) and add it to the GP. -/
def logObs (o : Opt) (x : List (ℕ × F)) (y : F) : Opt :=
  { o with gp := gpAdd o.gp (o.params.map (lookup0 x)) y }

/-- Exit of the `Optimize` loop: stopped by `Stop`, aborted by an error
from `Next`, finished (Next reported no point), or out of fuel (a
model artifact — the Go loop always terminates because `round` grows). -/
inductive LoopExit where
  | stopped (o : Opt)
  | nextErr (e : ExpErr) (o : Opt)
  | done (o : Opt)
  | fuelOut (o : Opt)

/-- The `for` loop of `Optimize`: check the running flag (cleared by a
concurrent `Stop`, modelled by `e.stop`), get the next point, break on
no point, otherwise evaluate the objective and log. Parallel rounds
are sequentialized: only the GP contents, never the counters, differ
under any interleaving, and every logged pair is identical. -/
def optLoop (e : Env) : ℕ → ℕ → Opt → LoopExit
  | 0, _, o => .fuelOut o
  | fuel + 1, t, o =>
    if e.stop t then .stopped o
    else
      match next e t o with
      | ((_, _, some err), o1) => .nextErr err o1
      | ((none, _, none), o1) => .done o1
      | ((some x, _, none), o1) => optLoop e fuel (t + 1) (logObs o1 x (e.f x))

/-- Result of `Optimize`: the concurrent-run rejection, the stop error,
a wrapped `Next` error, the panic of `GP.Minimum`/`GP.Maximum` on an
empty observation set, or the final point and value. -/
inductive OptResult where
  | alreadyRunning
  | stopped
  | nextErr (e : ExpErr)
  | panicked
  | ok (x : List (ℕ × F)) (y : F)
  | fuelOut

/-- Model of `Optimizer.Optimize` (bayesopt.go): reject a concurrent
run, mark running, loop, then clear running and extract the extreme
observation via `GP.Minimum` or `GP.Maximum` according to `minimize` —
with no emptiness check, so an empty observation set panics. -/
def optimize (e : Env) (fuel : ℕ) (o : Opt) : OptResult × Opt :=
  if o.running then (.alreadyRunning, o)
  else
    match optLoop e fuel 0 { o with running := true } with
    | .stopped o1 => (.stopped, o1)
    | .nextErr err o1 => (.nextErr err, o1)
    | .fuelOut o1 => (.fuelOut, o1)
    | .done o1 =>
      let o2 := { o1 with running := false }
      match (if o2.minimize then gpMinimum o2.gp else gpMaximum o2.gp) with
      | none => (.panicked, o2)
      | some xy => (.ok (mkMap o2.params xy.1) xy.2, o2)

/-!
The Matérn-5/2 kernel and its purported gradient (gp/cov.go), read with
exact real arithmetic in place of `float64`, to settle the purely
mathematical claim that `Grad` is the gradient of `Cov`.
-/

/-- Model of gonum `floats.Distance(a, b, 2)` over ℝ: the Euclidean
distance (lengths assumed equal; gonum panics otherwise). -/
noncomputable def dist2 (a b : List ℝ) : ℝ :=
  Real.sqrt (((List.zipWith (fun x y => x - y) a b).map (fun v => v * v)).sum)

/-- Radial profile of `MaternCov.Cov` (gp/cov.go) in the distance `t`,
with the source's `p = 2`:
`(1 + √5·t/p + 5·t·t/(3·p·p)) · exp(−√5·t/p)`. -/
noncomputable def covRadial (t : ℝ) : ℝ :=
  (1 + Real.sqrt 5 * t / 2 + 5 * t * t / (3 * 2 * 2)) *
    Real.exp (-Real.sqrt 5 * t / 2)

/-- Model of `MaternCov.Cov` (gp/cov.go): the radial profile at the
Euclidean distance between the arguments. -/
noncomputable def maternCov (a b : List ℝ) : ℝ := covRadial (dist2 a b)

/-- Scale factor applied by `MaternCov.Grad` (gp/cov.go) to the vector
`a − b`: the literal `math.Sqrt(5) + 5.0/3.0*d2 +
math.Sqrt(5)*math.Exp(-math.Sqrt(5)/2.0*d2)` of the source. -/
noncomputable def gradScale (t : ℝ) : ℝ :=
  Real.sqrt 5 + 5 / 3 * t + Real.sqrt 5 * Real.exp (-Real.sqrt 5 / 2 * t)

/-- Model of `MaternCov.Grad` (gp/cov.go): `d := a − b` (via
`floats.Add` then `floats.Sub`), scaled in place by `gradScale` of the
distance. -/
noncomputable def maternGrad (a b : List ℝ) : List ℝ :=
  (List.zipWith (fun x y => x - y) a b).map (fun v => gradScale (dist2 a b) * v)

/-- Modelled from the spec: the gradient of `cov` with respect to `a`
as the claim states it — for `a ≠ b` the vector `(a − b)` scaled by the
derivative of `cov` with respect to the distance `d`, divided by `d`;
the zero vector at `a = b`. This definition follows the claim's words
and exists to be compared with `maternGrad`, the definition translated
from the source. -/
noncomputable def maternGradSpec (a b : List ℝ) : List ℝ :=
  if a = b then List.replicate a.length 0
  else
    (List.zipWith (fun x y => x - y) a b).map
      (fun v => deriv covRadial (dist2 a b) / dist2 a b * v)

/-- Derivative of the radial covariance profile, by the product rule. -/
lemma hasDerivAt_covRadial (t : ℝ) :
    HasDerivAt covRadial
      ((Real.sqrt 5 * 1 / 2 + (5 * 1 * t + 5 * t * 1) / (3 * 2 * 2)) *
          Real.exp (-Real.sqrt 5 * t / 2) +
        (1 + Real.sqrt 5 * t / 2 + 5 * t * t / (3 * 2 * 2)) *
          (Real.exp (-Real.sqrt 5 * t / 2) * (-Real.sqrt 5 * 1 / 2))) t := by
  have hid : HasDerivAt (fun u : ℝ => u) 1 t := hasDerivAt_id t
  have ha : HasDerivAt (fun u : ℝ => Real.sqrt 5 * u / 2) (Real.sqrt 5 * 1 / 2) t :=
    (hid.const_mul (Real.sqrt 5)).div_const 2
  have hb : HasDerivAt (fun u : ℝ => 5 * u * u / (3 * 2 * 2))
      ((5 * 1 * t + 5 * t * 1) / (3 * 2 * 2)) t := by
    have h5u : HasDerivAt (fun u : ℝ => 5 * u) (5 * 1) t := hid.const_mul 5
    exact (h5u.mul hid).div_const (3 * 2 * 2)
  have hP : HasDerivAt
      (fun u : ℝ => 1 + Real.sqrt 5 * u / 2 + 5 * u * u / (3 * 2 * 2))
      (0 + Real.sqrt 5 * 1 / 2 + (5 * 1 * t + 5 * t * 1) / (3 * 2 * 2)) t :=
    ((hasDerivAt_const t 1).add ha).add hb
  have hg : HasDerivAt (fun u : ℝ => -Real.sqrt 5 * u / 2) (-Real.sqrt 5 * 1 / 2) t :=
    (hid.const_mul (-Real.sqrt 5)).div_const 2
  have hE : HasDerivAt (fun u : ℝ => Real.exp (-Real.sqrt 5 * u / 2))
      (Real.exp (-Real.sqrt 5 * t / 2) * (-Real.sqrt 5 * 1 / 2)) t := hg.exp
  have h := hP.mul hE
  rw [show covRadial = fun u : ℝ =>
    (1 + Real.sqrt 5 * u / 2 + 5 * u * u / (3 * 2 * 2)) *
      Real.exp (-Real.sqrt 5 * u / 2) from rfl]
  simpa using h

/-- The radial profile is strictly decreasing away from the origin:
its derivative is negative for every positive distance. -/
lemma deriv_covRadial_neg (t : ℝ) (ht : 0 < t) : deriv covRadial t < 0 := by
  rw [(hasDerivAt_covRadial t).deriv]
  have hs : Real.sqrt 5 * Real.sqrt 5 = 5 :=
    Real.mul_self_sqrt (by norm_num)
  have hs0 : 0 ≤ Real.sqrt 5 := Real.sqrt_nonneg 5
  have he : 0 < Real.exp (-Real.sqrt 5 * t / 2) := Real.exp_pos _
  nlinarith [mul_pos he ht, mul_nonneg (mul_nonneg hs0 ht.le) ht.le,
    mul_pos (mul_pos he ht) ht,
    mul_nonneg (mul_nonneg (mul_nonneg he.le hs0) ht.le) ht.le]

/-- The scale the source applies to `a − b` is strictly positive for
every nonnegative distance. -/
lemma gradScale_pos (t : ℝ) (ht : 0 ≤ t) : 0 < gradScale t := by
  have h1 : 0 < Real.sqrt 5 := Real.sqrt_pos.mpr (by norm_num)
  have h2 : 0 < Real.exp (-Real.sqrt 5 / 2 * t) := Real.exp_pos _
  have h3 : 0 < Real.sqrt 5 * Real.exp (-Real.sqrt 5 / 2 * t) := mul_pos h1 h2
  unfold gradScale
  nlinarith

/-- Scaling the difference of a list with itself gives the zero vector. -/
lemma map_scale_zipWith_self (c : ℝ) (a : List ℝ) :
    (List.zipWith (fun x y => x - y) a a).map (fun v => c * v) =
      List.replicate a.length 0 := by
  induction a with
  | nil => rfl
  | cons x xs ih => simp [List.replicate_succ, ih]

/-- Two equally long lists that differ have a nonzero coordinate in
their difference. -/
lemma zipWith_sub_ne_zero {a b : List ℝ} (hlen : a.length = b.length)
    (hne : a ≠ b) : ∃ v ∈ List.zipWith (fun x y => x - y) a b, v ≠ 0 := by
  induction a generalizing b with
  | nil =>
      cases b with
      | nil => exact absurd rfl hne
      | cons y ys => simp at hlen
  | cons x xs ih =>
      cases b with
      | nil => simp at hlen
      | cons y ys =>
          by_cases hxy : x = y
          · subst hxy
            have hne' : xs ≠ ys := by
              intro h
              exact hne (by rw [h])
            obtain ⟨v, hv, hv0⟩ := ih (by simpa using hlen) hne'
            exact ⟨v, by simp [hv], hv0⟩
          · exact ⟨x - y, by simp, sub_ne_zero.mpr hxy⟩

/-- A list of squares with a nonzero member has positive sum. -/
lemma sum_sq_pos {l : List ℝ} {v : ℝ} (hv : v ∈ l) (hv0 : v ≠ 0) :
    0 < (l.map (fun u => u * u)).sum := by
  induction l with
  | nil => simp at hv
  | cons x xs ih =>
      have hnn : 0 ≤ (xs.map (fun u => u * u)).sum := by
        apply List.sum_nonneg
        intro q hq
        simp only [List.mem_map] at hq
        obtain ⟨u, _, rfl⟩ := hq
        exact mul_self_nonneg u
      rcases List.mem_cons.mp hv with hvx | hvxs
      · subst hvx
        have : 0 < v * v := mul_self_pos.mpr hv0
        simp only [List.map_cons, List.sum_cons]
        nlinarith
      · have := ih hvxs
        simp only [List.map_cons, List.sum_cons]
        nlinarith [mul_self_nonneg x]

/-- Distinct equally long vectors are at positive Euclidean distance. -/
lemma dist2_pos {a b : List ℝ} (hlen : a.length = b.length) (hne : a ≠ b) :
    0 < dist2 a b := by
  obtain ⟨v, hv, hv0⟩ := zipWith_sub_ne_zero hlen hne
  exact Real.sqrt_pos.mpr (sum_sq_pos hv hv0)

/-!
Concrete instances used by counterexamples and witnesses.
-/

/-- Constant covariance function, for concrete GP instances. -/
def covConst : List F → List F → F := fun _ _ => .fin 1

/-- Oracle whose Cholesky factorization always reports failure. -/
def oracleFactFail : Oracle :=
  { sqrtF := fun q => .fin q, expF := fun q => .fin q,
    factorize := fun _ => false, solve := fun _ _ => .ok [] }

/-- Oracle whose library calls all succeed (solve echoes its
right-hand side; the numeric values are irrelevant to the control-flow
facts it instantiates). -/
def oracleOK : Oracle :=
  { sqrtF := fun q => .fin q, expF := fun q => .fin q,
    factorize := fun _ => true, solve := fun _ v => .ok v }

/-!
Helper lemmas.
-/

/-- Multiplication by NaN is NaN. -/
lemma fmul_nan (z : F) : fmul z .nan = .nan := by cases z <;> rfl

/-- Addition with NaN is NaN. -/
lemma fadd_nan (z : F) : fadd .nan z = .nan := by cases z <;> rfl

/-- Querying a non-dirty GP never mutates it: `Estimate` recomputes
only when `dirty` is set. -/
lemma estimate_state_of_not_dirty (or : Oracle) (g : GP) (x : List F)
    (h : g.dirty = false) : (estimate or g x).2 = g := by
  unfold estimate
  rw [h]
  simp only [Bool.false_eq_true, if_false]
  repeat' split
  all_goals rfl

/-!
Claim C1.
-/

/-- C1, counterexample: on a one-observation GP whose factorization
fails, `compute` does surface the distinguished factorize-failed error,
but the `dirty` flag does NOT remain set — the deferred
`gp.dirty = false` runs on the error path too, so the claim's
"the dirty flag remains set (is not cleared)" is false at this input. -/
theorem c1_dirty_cleared_counterexample :
    (compute oracleFactFail (gpAdd (gpNew covConst (.fin 0)) [.fin 1] (.fin 2))).1
        = some GPErr.factorizeFailed ∧
    (compute oracleFactFail (gpAdd (gpNew covConst (.fin 0)) [.fin 1] (.fin 2))).2.dirty
        = false :=
  ⟨rfl, rfl⟩

/-- C1, amended: if the Cholesky factorization of the kernel-plus-noise
matrix fails, `compute` surfaces the distinguished factorize-failed
error, but the deferred cleanup clears the `dirty` flag even on this
failure path (leaving every other field untouched), so a subsequent
query does not re-attempt the refit: `Estimate` on the resulting state
performs no recompute and leaves the state unchanged. -/
theorem c1_factorize_failure_clears_dirty (or : Oracle) (g : GP)
    (hn : g.inputs.length ≠ 0)
    (hf : or.factorize (kernelMatrix g) = false) :
    compute or g = (some GPErr.factorizeFailed, { g with dirty := false }) ∧
    ∀ x, (estimate or (compute or g).2 x).2 = (compute or g).2 := by
  have hc : compute or g = (some GPErr.factorizeFailed, { g with dirty := false }) := by
    simp [compute, hn, hf]
  refine ⟨hc, fun x => ?_⟩
  rw [hc]
  exact estimate_state_of_not_dirty or _ x rfl

/-- C1, witness for the amended theorem at a concrete input. -/
theorem c1_factorize_failure_clears_dirty_witness :
    compute oracleFactFail (gpAdd (gpNew covConst (.fin 0)) [.fin 3] (.fin 4))
        = (some GPErr.factorizeFailed,
            { gpAdd (gpNew covConst (.fin 0)) [.fin 3] (.fin 4) with dirty := false }) ∧
    ∀ x, (estimate oracleFactFail
        (compute oracleFactFail (gpAdd (gpNew covConst (.fin 0)) [.fin 3] (.fin 4))).2 x).2
      = (compute oracleFactFail (gpAdd (gpNew covConst (.fin 0)) [.fin 3] (.fin 4))).2 :=
  c1_factorize_failure_clears_dirty oracleFactFail
    (gpAdd (gpNew covConst (.fin 0)) [.fin 3] (.fin 4)) (by decide) rfl

/-!
Claim C2.
-/

/-- C2, counterexample: a GP holding a one-dimensional observation
accepts a two-coordinate observation through `Add` exactly as any
other — the pair is appended and `dirty` is set; `Add` has no error
return at all, so the claim's "it fails (reports an error) whenever
len(x) differs from the established dimensionality" is false at this
input. -/
theorem c2_add_no_dim_check_counterexample :
    gpDims (gpAdd (gpNew covConst (.fin 0)) [.fin 1] (.fin 1)) = 1 ∧
    (gpAdd (gpAdd (gpNew covConst (.fin 0)) [.fin 1] (.fin 1))
        [.fin 1, .fin 2] (.fin 3)).inputs = [[.fin 1], [.fin 1, .fin 2]] ∧
    (gpAdd (gpAdd (gpNew covConst (.fin 0)) [.fin 1] (.fin 1))
        [.fin 1, .fin 2] (.fin 3)).dirty = true :=
  ⟨rfl, rfl, rfl⟩

/-- C2, amended: `Add(x, y)` appends the observation and sets the dirty
flag unconditionally; it performs no dimensionality check and has no
error path, so observations whose length differs from the established
dimensionality are silently accepted. -/
theorem c2_add_appends_unconditionally (g : GP) (x : List F) (y : F) :
    (gpAdd g x y).dirty = true ∧
    (gpAdd g x y).inputs = g.inputs ++ [x] ∧
    (gpAdd g x y).outputs = g.outputs ++ [y] :=
  ⟨rfl, rfl, rfl⟩

/-- C2, witness for the amended theorem: a two-coordinate observation
appended to a GP whose established dimensionality is one. -/
theorem c2_add_appends_unconditionally_witness :
    (gpAdd (gpAdd (gpNew covConst (.fin 0)) [.fin 1] (.fin 1))
        [.fin 1, .fin 2] (.fin 3)).dirty = true ∧
    (gpAdd (gpAdd (gpNew covConst (.fin 0)) [.fin 1] (.fin 1))
        [.fin 1, .fin 2] (.fin 3)).inputs
      = (gpAdd (gpNew covConst (.fin 0)) [.fin 1] (.fin 1)).inputs
          ++ [[.fin 1, .fin 2]] ∧
    (gpAdd (gpAdd (gpNew covConst (.fin 0)) [.fin 1] (.fin 1))
        [.fin 1, .fin 2] (.fin 3)).outputs
      = (gpAdd (gpNew covConst (.fin 0)) [.fin 1] (.fin 1)).outputs ++ [.fin 3] :=
  c2_add_appends_unconditionally (gpAdd (gpNew covConst (.fin 0)) [.fin 1] (.fin 1))
    [.fin 1, .fin 2] (.fin 3)

/-!
Claim C3.
-/

/-- Elementwise consequence of an equality of two maps over one list. -/
lemma map_eq_map_mem {α β : Type} {f g : α → β} {l : List α}
    (h : l.map f = l.map g) {v : α} (hv : v ∈ l) : f v = g v := by
  induction l with
  | nil => simp at hv
  | cons x xs ih =>
      simp only [List.map_cons, List.cons.injEq] at h
      rcases List.mem_cons.mp hv with rfl | hvx
      · exact h.1
      · exact ih h.2 hvx

/-- The distance between the concrete vectors [1] and [0] is 1. -/
lemma dist2_one_zero : dist2 [(1 : ℝ)] [0] = 1 := by
  unfold dist2
  norm_num

/-- C3, counterexample: at a = [1], b = [0] the vector returned by
`MaternCov.Grad` differs from the claim's gradient formula — the
source scales (a − b) by the positive factor
√5 + (5/3)·d + √5·exp(−(√5/2)·d), while the derivative of `Cov` in
the distance is negative there. -/
theorem c3_grad_counterexample :
    maternGrad [(1 : ℝ)] [0] ≠ maternGradSpec [(1 : ℝ)] [0] := by
  have hpos : 0 < gradScale 1 := gradScale_pos 1 (by norm_num)
  have hneg : deriv covRadial 1 < 0 := deriv_covRadial_neg 1 (by norm_num)
  intro h
  unfold maternGrad maternGradSpec at h
  rw [if_neg (by norm_num : ¬([(1 : ℝ)] = [0]))] at h
  rw [dist2_one_zero] at h
  simp only [List.zipWith, List.map_cons, List.map_nil, List.cons.injEq] at h
  have hh := h.1
  rw [div_one] at hh
  nlinarith [hh]

/-- C3, amended: `MaternCov.Grad(a, b)` returns the zero vector at
a = b, and for a ≠ b it returns (a − b) scaled by the strictly positive
factor √5 + (5/3)·d + √5·exp(−(√5/2)·d); this is NOT the gradient of
`MaternCov.Cov` with respect to a — the derivative of the covariance in
the distance is strictly negative for every positive distance, so the
returned vector differs from the claimed gradient formula on every
pair of equal-length vectors with a ≠ b. -/
theorem c3_grad_structure :
    (∀ a : List ℝ, maternGrad a a = List.replicate a.length 0) ∧
    (∀ t : ℝ, 0 < t → 0 < gradScale t ∧ deriv covRadial t < 0) ∧
    (∀ a b : List ℝ, a.length = b.length → a ≠ b →
        maternGrad a b ≠ maternGradSpec a b) := by
  refine ⟨fun a => map_scale_zipWith_self _ a, fun t ht => ⟨gradScale_pos t ht.le,
    deriv_covRadial_neg t ht⟩, fun a b hlen hne h => ?_⟩
  have hd : 0 < dist2 a b := dist2_pos hlen hne
  obtain ⟨v, hv, hv0⟩ := zipWith_sub_ne_zero hlen hne
  unfold maternGrad maternGradSpec at h
  rw [if_neg hne] at h
  have hsv := map_eq_map_mem h hv
  have hscale : gradScale (dist2 a b) = deriv covRadial (dist2 a b) / dist2 a b :=
    mul_right_cancel₀ hv0 hsv
  have h1 : 0 < gradScale (dist2 a b) := gradScale_pos _ hd.le
  have h2 : deriv covRadial (dist2 a b) / dist2 a b < 0 :=
    div_neg_of_neg_of_pos (deriv_covRadial_neg _ hd) hd
  linarith [hscale ▸ h1]

/-- C3, witness for the amended theorem at the concrete distance 1 and
the concrete pair ([1], [0]). -/
theorem c3_grad_structure_witness :
    (0 < gradScale 1 ∧ deriv covRadial 1 < 0) ∧
    maternGrad [(1 : ℝ)] [0] ≠ maternGradSpec [(1 : ℝ)] [0] :=
  ⟨c3_grad_structure.2.1 1 (by norm_num),
    c3_grad_structure.2.2 [1] [0] rfl (by norm_num)⟩

/-!
Claim C4.
-/

/-- The output statistics of a single observation: the mean is the
observation, and the unbiased sample standard deviation divides by
n − 1 = 0, so it is NaN. -/
lemma meanStdDev_single (or : Oracle) (y : ℚ) :
    meanStdDev or [.fin y] = (.fin y, F.nan) := by
  simp [meanStdDev, fsum, fadd, fdiv, fsub, fmul, fsqrtO]

/-- Setup of the single-observation claim: a GP constructed with zero
noise holding exactly one observation (x, y). -/
def gpSingle (cov : List F → List F → F) (x : List F) (qy : ℚ) : GP :=
  gpAdd (gpNew cov (.fin 0)) x (.fin qy)

/-- Refitting a GP that holds exactly one observation either fails or
produces a state with a NaN `stddev` (and `n = 1`, a stored
factorization and `dirty` cleared): the standardization divides by the
n − 1 sample standard deviation, which is 0/0 for n = 1. -/
lemma compute_single_cases (or : Oracle) (cov : List F → List F → F)
    (x : List F) (qy : ℚ) :
    (∃ e s, compute or (gpSingle cov x qy) = (some e, s)) ∨
    (∃ alpha, compute or (gpSingle cov x qy) =
      (none,
        { inputs := [x], outputs := [.fin qy], cov := cov, noise := .fin 0,
          alpha := alpha, l := some (kernelMatrix (gpSingle cov x qy)),
          mean := .fin qy, stddev := F.nan, n := 1, dirty := false })) := by
  have hlen : (gpSingle cov x qy).inputs.length = 1 := rfl
  unfold compute
  rw [hlen]
  simp only [one_ne_zero, if_false]
  cases hf : or.factorize (kernelMatrix (gpSingle cov x qy)) with
  | false =>
      simp only [eq_self_iff_true, if_true]
      exact Or.inl ⟨GPErr.factorizeFailed, _, rfl⟩
  | true =>
      have hnorm : normOutputs or (gpSingle cov x qy) =
          ({ gpSingle cov x qy with mean := .fin qy, stddev := F.nan },
            [fdiv (fsub (.fin qy) (.fin qy)) F.nan]) := by
        unfold normOutputs
        rw [show (gpSingle cov x qy).outputs = [.fin qy] from rfl]
        rw [meanStdDev_single]
        rfl
      simp only [Bool.true_eq_false, if_false, hnorm]
      cases hs : or.solve (kernelMatrix (gpSingle cov x qy))
          [fdiv (fsub (.fin qy) (.fin qy)) F.nan] with
      | ok v => exact Or.inr ⟨v, rfl⟩
      | condition v => exact Or.inr ⟨v, rfl⟩
      | failed => exact Or.inl ⟨GPErr.solveAlphaFailed, _, rfl⟩

/-- C4: querying a zero-noise GP that holds exactly one observation
(x, y) at any point never produces a finite mean — `Estimate` either
surfaces an error or returns a NaN mean, whatever values the numeric
library primitives return. The output standardization divides by the
unbiased sample standard deviation, which is 0/0 for a single output,
and the NaN stored in `stddev` propagates into the posterior mean
`k*ᵀα·stddev + mean`. The claim's `Estimate(x) = (y, 0)` within 1e-4
(with no error) is therefore violated on every such GP. -/
theorem c4_single_point_estimate_nan (or : Oracle) (cov : List F → List F → F)
    (x : List F) (qy : ℚ) :
    (∃ e, (estimate or (gpSingle cov x qy) x).1 = .error e) ∨
    (∃ sd, (estimate or (gpSingle cov x qy) x).1 = .ok (F.nan, sd)) := by
  have hdirty : (gpSingle cov x qy).dirty = true := rfl
  unfold estimate
  rw [hdirty]
  simp only [if_true]
  rcases compute_single_cases or cov x qy with ⟨e, s, hc⟩ | ⟨alpha, hc⟩
  · rw [hc]
    exact Or.inl ⟨e, rfl⟩
  · rw [hc]
    simp only [fmul_nan, fadd_nan, one_ne_zero, if_false]
    have hks : List.map (fun xi => cov xi x) (List.take 1 [x]) = [cov x x] := rfl
    cases hs : or.solve (kernelMatrix (gpSingle cov x qy)) [cov x x] with
    | ok v =>
        exact Or.inr ⟨fsqrtO or (fsub (cov x x) (fdot [cov x x] v)), by
          simp only [hks, hs]⟩
    | condition v =>
        exact Or.inr ⟨fsqrtO or (fsub (cov x x) (fdot [cov x x] v)), by
          simp only [hks, hs]⟩
    | failed =>
        exact Or.inl ⟨GPErr.solveVFailed, by simp only [hks, hs]⟩

/-- C4, witness: the NaN-mean (or error) disjunction at the concrete
single observation x = [1], y = 1 under the all-succeeding oracle. -/
theorem c4_single_point_estimate_nan_witness :
    (∃ e, (estimate oracleOK (gpSingle covConst [.fin 1] 1) [.fin 1]).1 = .error e) ∨
    (∃ sd, (estimate oracleOK (gpSingle covConst [.fin 1] 1) [.fin 1]).1
        = .ok (F.nan, sd)) :=
  c4_single_point_estimate_nan oracleOK covConst [.fin 1] 1

/-!
Claim C5.
-/

/-- C5: `UCB.Estimate(gp, minimize, x)` returns `mean − κ·sd` when
minimizing and `mean + κ·sd` otherwise, where `(mean, sd)` is what
`gp.Estimate(x)` returned, and any error from `gp.Estimate` is
propagated unchanged to the caller. -/
theorem c5_ucb_estimate (or : Oracle) (kappa : F) (g : GP) (minimize : Bool)
    (x : List F) :
    (∀ m sd g1, estimate or g x = (.ok (m, sd), g1) →
      ucbEstimate or kappa g minimize x =
        (.ok (if minimize then fsub m (fmul kappa sd)
              else fadd m (fmul kappa sd)), g1)) ∧
    (∀ e g1, estimate or g x = (.error e, g1) →
      ucbEstimate or kappa g minimize x = (.error e, g1)) := by
  constructor
  · intro m sd g1 h
    unfold ucbEstimate
    rw [h]
  · intro e g1 h
    unfold ucbEstimate
    rw [h]

/-- A concrete refitted GP state on which `Estimate` succeeds: one
stored observation, a stored factorization, finite statistics. -/
def gpReady : GP :=
  { inputs := [[.fin 0]], outputs := [.fin 1], cov := covConst, noise := .fin 0,
    alpha := [.fin 1], l := some [[.fin 1]], mean := .fin 0, stddev := .fin 1,
    n := 1, dirty := false }

/-- C5, witness: on the concrete state `gpReady`, `gp.Estimate` returns
mean 1 and standard deviation 0, and UCB with κ = 2 in minimize mode
returns 1 − 2·0. -/
theorem c5_ucb_estimate_witness :
    ucbEstimate oracleOK (.fin 2) gpReady true [.fin 0] =
      (.ok (fsub (.fin 1) (fmul (.fin 2) (.fin 0))), gpReady) := by
  have hW : estimate oracleOK gpReady [F.fin 0] = (.ok (.fin 1, .fin 0), gpReady) := by
    norm_num [estimate, gpReady, oracleOK, covConst, fdot, fsum, fmul, fadd,
      fsub, fsqrtO]
  exact (c5_ucb_estimate oracleOK (.fin 2) gpReady true [.fin 0]).1 (.fin 1)
    (.fin 0) gpReady hW

/-!
Claim C6.
-/

/-- Acceptance case of the rejection loop: if the draw made at attempt
`m` (counting from the current index `i`) is the first to pass the
IEEE in-range test, the loop returns it after exactly `m + 1` draws. -/
lemma truncAux_accept (lo hi : F) (f : ℕ → F) :
    ∀ (k m i : ℕ) (s : F), m < k →
      (fge (f (i + m)) lo && fle (f (i + m)) hi) = true →
      (∀ j, j < m → (fge (f (i + j)) lo && fle (f (i + j)) hi) = false) →
      truncAux lo hi f k i s = (f (i + m), i + m + 1)
  | 0, m, _, _, hm => absurd hm (Nat.not_lt_zero m)
  | k + 1, 0, i, s, _ => by
      intro hacc _
      unfold truncAux
      rw [if_pos (by simpa using hacc)]
      simp
  | k + 1, m + 1, i, s, hm => by
      intro hacc hrej
      have h0 := hrej 0 (Nat.succ_pos m)
      simp only [Nat.add_zero] at h0
      unfold truncAux
      rw [if_neg (by rw [h0]; exact Bool.false_ne_true)]
      have e1 : i + 1 + m = i + (m + 1) := by omega
      have ih := truncAux_accept lo hi f k m (i + 1) (f i) (by omega)
        (by rw [e1]; exact hacc)
        (fun j hj => by
          have := hrej (j + 1) (by omega)
          have e2 : i + (j + 1) = i + 1 + j := by omega
          rw [e2] at this
          exact this)
      rw [ih, e1]

/-- Exhaustion case of the rejection loop: if every one of the `k`
remaining draws fails the IEEE in-range test, the loop makes exactly
`k` draws and returns the last one through the `math.Min`/`math.Max`
clamp. -/
lemma truncAux_reject_all (lo hi : F) (f : ℕ → F) :
    ∀ (k i : ℕ) (s : F), 1 ≤ k →
      (∀ j, j < k → (fge (f (i + j)) lo && fle (f (i + j)) hi) = false) →
      truncAux lo hi f k i s = (fminG (fmaxG (f (i + k - 1)) lo) hi, i + k)
  | 0, _, _, hk => absurd hk (by omega)
  | k + 1, i, s, _ => by
      intro hrej
      have h0 := hrej 0 (Nat.succ_pos k)
      simp only [Nat.add_zero] at h0
      unfold truncAux
      rw [if_neg (by rw [h0]; exact Bool.false_ne_true)]
      rcases Nat.eq_zero_or_pos k with hk0 | hkpos
      · subst hk0
        unfold truncAux
        simp
      · have ih := truncAux_reject_all lo hi f k (i + 1) (f i) hkpos
          (fun j hj => by
            have := hrej (j + 1) (by omega)
            have e2 : i + (j + 1) = i + 1 + j := by omega
            rw [e2] at this
            exact this)
        rw [ih]
        have e3 : i + 1 + k - 1 = i + (k + 1) - 1 := by omega
        have e4 : i + 1 + k = i + (k + 1) := by omega
        rw [e3, e4]

/-- The rejection loop lands inside a non-degenerate box or returns
NaN: an accepted draw passes the test by the loop condition, a finite
clamped value is boxed by the clamp, and a NaN reaching the clamp
propagates through `math.Min`/`math.Max`. -/
lemma truncAux_box_or_nan (lo hi : F) (f : ℕ → F) (h : fle lo hi = true) :
    ∀ (k i : ℕ) (s : F),
      (fge (truncAux lo hi f k i s).1 lo &&
        fle (truncAux lo hi f k i s).1 hi) = true ∨
      (truncAux lo hi f k i s).1 = F.nan
  | 0, i, s => by
      rcases lo with a | _
      · rcases hi with b | _
        · have hab : a ≤ b := by simpa [fle] using h
          rcases s with q | _
          · left
            unfold truncAux
            simp only [fmaxG, fminG, fge, fle, Bool.and_eq_true, decide_eq_true_eq]
            exact ⟨le_min (le_max_right q a) hab, min_le_right _ b⟩
          · right
            rfl
        · simp [fle] at h
      · simp [fle] at h
  | k + 1, i, s => by
      unfold truncAux
      by_cases hc : (fge (f i) lo && fle (f i) hi) = true
      · rw [if_pos hc]
        exact Or.inl hc
      · rw [if_neg hc]
        exact truncAux_box_or_nan lo hi f h k (i + 1) (f i)

/-- C6, counterexample: a draw function that always returns NaN is
never accepted (IEEE comparisons with NaN are false), so after exactly
`SampleTries` draws the Go clamp `math.Min(math.Max(NaN, min), max)`
returns NaN — a result that does NOT lie in [GetMin(), GetMax()],
falsifying the claim's "the result always lies in the box" at the
Uniform[5, 10] parameter. -/
theorem c6_nan_draw_counterexample :
    truncateSample (.fin 5) (.fin 10) (fun _ => F.nan) sampleTries
        = (F.nan, sampleTries) ∧
    (fge F.nan (.fin 5) && fle F.nan (.fin 10)) = false := by
  refine ⟨?_, rfl⟩
  have h := truncAux_reject_all (.fin 5) (.fin 10) (fun _ => F.nan)
    sampleTries 0 (.fin 0) (by norm_num [sampleTries]) (fun j hj => rfl)
  simpa [truncateSample, fmaxG, fminG] using h

/-- C6, amended: for a box with `GetMin() ≤ GetMax()` and any draw
stream, `truncateSample` returns the first draw passing the IEEE
in-range test, invoking the draw function exactly once per attempt; if
all `SampleTries` draws fail the test, the draw function is invoked
exactly `SampleTries` times and the last draw is returned through the
NaN-propagating clamp `math.Min(math.Max(sample, min), max)`; the
result therefore lies in [GetMin(), GetMax()] unless it is NaN (which
happens exactly when a NaN draw exhausts the tries). -/
theorem c6_truncate_sample_amended (lo hi : F) (f : ℕ → F) (tries : ℕ)
    (h : fle lo hi = true) :
    (∀ i, i < tries → (fge (f i) lo && fle (f i) hi) = true →
      (∀ j, j < i → (fge (f j) lo && fle (f j) hi) = false) →
      truncateSample lo hi f tries = (f i, i + 1)) ∧
    ((∀ i, i < tries → (fge (f i) lo && fle (f i) hi) = false) → 1 ≤ tries →
      truncateSample lo hi f tries = (fminG (fmaxG (f (tries - 1)) lo) hi, tries)) ∧
    ((fge (truncateSample lo hi f tries).1 lo &&
        fle (truncateSample lo hi f tries).1 hi) = true ∨
      (truncateSample lo hi f tries).1 = F.nan) := by
  refine ⟨fun i hi_lt hacc hrej => ?_, fun hrej htries => ?_,
    truncAux_box_or_nan lo hi f h tries 0 (.fin 0)⟩
  · have := truncAux_accept lo hi f tries i 0 (.fin 0) hi_lt (by simpa using hacc)
      (fun j hj => by simpa using hrej j hj)
    simpa [truncateSample] using this
  · have := truncAux_reject_all lo hi f tries 0 (.fin 0) htries
      (fun j hj => by simpa using hrej j hj)
    simpa [truncateSample] using this

/-- C6, witness for the amended theorem: over the box [5, 10], a draw
stream constantly 0 is clamped to 5 after exactly 3 of 3 tries, a
stream constantly 7 is returned after exactly 1 draw, and the NaN
stream's result satisfies the box-or-NaN disjunction. -/
theorem c6_truncate_sample_amended_witness :
    truncateSample (.fin 5) (.fin 10) (fun _ => .fin 0) 3 = (.fin 5, 3) ∧
    truncateSample (.fin 5) (.fin 10) (fun _ => .fin 7) 3 = (.fin 7, 1) ∧
    ((fge (truncateSample (.fin 5) (.fin 10) (fun _ => F.nan) 3).1 (.fin 5) &&
        fle (truncateSample (.fin 5) (.fin 10) (fun _ => F.nan) 3).1 (.fin 10))
        = true ∨
      (truncateSample (.fin 5) (.fin 10) (fun _ => F.nan) 3).1 = F.nan) := by
  have hle : fle (.fin 5 : F) (.fin 10) = true := by decide
  have h1 := (c6_truncate_sample_amended (.fin 5) (.fin 10)
    (fun _ => .fin 0) 3 hle).2.1 (by decide) (by decide)
  have h2 := (c6_truncate_sample_amended (.fin 5) (.fin 10)
    (fun _ => .fin 7) 3 hle).1 0 (by decide) (by decide) (by decide)
  refine ⟨?_, by simpa using h2,
    (c6_truncate_sample_amended (.fin 5) (.fin 10) (fun _ => F.nan) 3 hle).2.2⟩
  rw [h1]
  norm_num [fminG, fmaxG]

/-!
Claims C7 and C8: controller properties of `Next` and `Optimize`.
-/

/-- Sampling environment used by the controller witnesses. -/
def envW : Env :=
  { sample := fun _ => [.fin 1], explore := fun _ => .found [.fin 1],
    stop := fun _ => false, f := fun _ => .fin 2 }

/-- Transition facts of a single `Next` call: the rounds budget is
untouched; the round counter never decreases; a call that returns a
point increments it by exactly one and only fires below the budget; a
call that returns no point and no error either left the state
untouched (with the counter at the budget, when no sticky error is
set) or recorded a sticky exploration error without touching the
counter. -/
lemma next_props (e : Env) (t : ℕ) (o : Opt) :
    (next e t o).2.rounds = o.rounds ∧
    o.round ≤ (next e t o).2.round ∧
    (∀ x par err, (next e t o).1 = (some x, par, err) →
      (next e t o).2.round = o.round + 1 ∧ o.round < o.rounds) ∧
    (∀ par, (next e t o).1 = (none, par, none) →
      ((next e t o).2 = o ∧ (o.explorationErr = none → o.rounds ≤ o.round)) ∨
      ((next e t o).2.explorationErr ≠ none ∧ (next e t o).2.round = o.round)) := by
  unfold next
  by_cases h1 : o.round ≥ o.rounds ∨ o.explorationErr ≠ none
  · rw [if_pos h1]
    refine ⟨rfl, le_refl _, fun x par err hx => by simp at hx, fun par hx => ?_⟩
    refine Or.inl ⟨rfl, fun herr => ?_⟩
    rcases h1 with h | h
    · exact h
    · exact absurd herr h
  · rw [if_neg h1]
    rw [not_or, not_le] at h1
    by_cases h2 : o.round < o.randomRounds
    · rw [if_pos h2]
      exact ⟨rfl, le_of_lt (lt_add_one o.round), fun x par err _ => ⟨rfl, h1.1⟩,
        fun par hx => by simp at hx⟩
    · rw [if_neg h2]
      cases he : e.explore t with
      | globalErr err =>
          exact ⟨rfl, le_refl _, fun x par e2 hx => by simp at hx,
            fun par hx => by simp at hx⟩
      | fatal err =>
          exact ⟨rfl, le_refl _, fun x par e2 hx => by simp at hx,
            fun par _ => Or.inr ⟨by simp, rfl⟩⟩
      | found minX =>
          exact ⟨rfl, le_of_lt (lt_add_one o.round), fun x par e2 _ => ⟨rfl, h1.1⟩,
            fun par hx => by simp at hx⟩

/-- Logging never touches the counters. -/
lemma logObs_counters (o : Opt) (x : List (ℕ × F)) (y : F) :
    (logObs o x y).round = o.round ∧ (logObs o x y).rounds = o.rounds ∧
      (logObs o x y).explorationErr = o.explorationErr :=
  ⟨rfl, rfl, rfl⟩

/-- Invariant carried by the `Optimize` loop to its normal exit: when
the loop breaks because `Next` reported no point, the budget is
unchanged, the counter is within the budget, and — unless a sticky
exploration error was recorded — the counter has reached the budget
exactly. -/
lemma optLoop_done_inv (e : Env) :
    ∀ (fuel t : ℕ) (o o1 : Opt), 0 ≤ o.round → o.round ≤ o.rounds →
      optLoop e fuel t o = .done o1 →
      o1.rounds = o.rounds ∧ 0 ≤ o1.round ∧ o1.round ≤ o1.rounds ∧
        (o1.explorationErr = none → o1.round = o1.rounds) := by
  intro fuel
  induction fuel with
  | zero => intro t o o1 _ _ h; simp [optLoop] at h
  | succ fuel ih =>
      intro t o o1 h0 hle h
      unfold optLoop at h
      by_cases hstop : e.stop t
      · rw [if_pos hstop] at h
        simp at h
      · rw [if_neg hstop] at h
        obtain ⟨hrounds, hmono, hsome, hnone⟩ := next_props e t o
        rcases hnx : next e t o with ⟨⟨xq, par, errq⟩, o'⟩
        rw [hnx] at h hrounds hmono hsome hnone
        rcases errq with _ | err
        · rcases xq with _ | xv
          · -- Next returned no point: the loop breaks here.
            simp only [] at h
            have ho1 : o' = o1 := by
              cases h
              rfl
            subst ho1
            rcases hnone par rfl with ⟨hsame, himp⟩ | ⟨herr, hrd⟩
            · have hsame' : o' = o := hsame
              subst hsame'
              exact ⟨rfl, h0, hle, fun hno => le_antisymm hle (himp hno)⟩
            · have herr' : o'.explorationErr ≠ none := herr
              have hrd' : o'.round = o.round := hrd
              have hrnds : o'.rounds = o.rounds := hrounds
              exact ⟨hrnds, by rw [hrd']; exact h0,
                by rw [hrd', hrnds]; exact hle, fun hno => absurd hno herr'⟩
          · -- Next returned a point: log it and continue.
            simp only [] at h
            have hinc : o'.round = o.round + 1 := (hsome xv par none rfl).1
            have hlt : o.round < o.rounds := (hsome xv par none rfl).2
            have hrnds : o'.rounds = o.rounds := hrounds
            have hres := ih (t + 1) (logObs o' xv (e.f xv)) o1
              (by show 0 ≤ o'.round; omega)
              (by show o'.round ≤ o'.rounds; omega)
              h
            refine ⟨?_, hres.2⟩
            rw [hres.1]
            show o'.rounds = o.rounds
            exact hrnds
        · -- Next returned an error: the loop exits abnormally.
          simp at h

/-- C7: the round counter stays non-negative and never decreases,
increases by exactly one on each `Next` call that returns a point,
never exceeds the configured budget; and an `Optimize` run that
completes normally (neither stopped nor aborted: it returned a result)
with no sticky exploration error recorded ends with `Rounds()` equal
to the configured `rounds`. -/
theorem c7_round_accounting :
    (∀ (e : Env) (t : ℕ) (o : Opt),
      (0 ≤ o.round → 0 ≤ (next e t o).2.round) ∧
      o.round ≤ (next e t o).2.round ∧
      (∀ x par err, (next e t o).1 = (some x, par, err) →
        (next e t o).2.round = o.round + 1) ∧
      (o.round ≤ o.rounds → (next e t o).2.round ≤ o.rounds)) ∧
    (∀ (e : Env) (fuel : ℕ) (o0 : Opt) (x : List (ℕ × F)) (y : F) (o1 : Opt),
      o0.round = 0 → 0 ≤ o0.rounds → o0.running = false →
      optimize e fuel o0 = (.ok x y, o1) → o1.explorationErr = none →
      o1.round = o0.rounds) := by
  constructor
  · intro e t o
    obtain ⟨hrounds, hmono, hsome, hnone⟩ := next_props e t o
    refine ⟨fun h0 => le_trans h0 hmono, hmono,
      fun x par err hx => (hsome x par err hx).1, fun hle => ?_⟩
    rcases hx : (next e t o).1 with ⟨xq, par, errq⟩
    rcases xq with _ | xv
    · rcases errq with _ | err
      · rcases hnone par hx with ⟨hsame, _⟩ | ⟨_, hrd⟩
        · rw [hsame]; exact hle
        · rw [hrd]; exact hle
      · -- an error return leaves the state untouched; read it off `next`.
        have : (next e t o).2.round = o.round ∨
            (next e t o).2.round = o.round + 1 ∧ o.round < o.rounds := by
          unfold next
          by_cases h1 : o.round ≥ o.rounds ∨ o.explorationErr ≠ none
          · rw [if_pos h1]; exact Or.inl rfl
          · rw [if_neg h1]
            rw [not_or, not_le] at h1
            by_cases h2 : o.round < o.randomRounds
            · rw [if_pos h2]; exact Or.inr ⟨rfl, h1.1⟩
            · rw [if_neg h2]
              cases e.explore t
              · exact Or.inl rfl
              · exact Or.inl rfl
              · exact Or.inr ⟨rfl, h1.1⟩
        rcases this with h | ⟨h, hlt⟩
        · rw [h]; exact hle
        · rw [h]; omega
    · obtain ⟨hinc, hlt⟩ := hsome xv par errq hx
      rw [hinc]; omega
  · intro e fuel o0 x y o1 h0 hr hrun hopt herr
    unfold optimize at hopt
    rw [hrun] at hopt
    simp only [Bool.false_eq_true, if_false] at hopt
    cases hl : optLoop e fuel 0 { o0 with running := true } with
    | stopped o2 => rw [hl] at hopt; simp at hopt
    | nextErr err o2 => rw [hl] at hopt; simp at hopt
    | fuelOut o2 => rw [hl] at hopt; simp at hopt
    | done o2 =>
        rw [hl] at hopt
        simp only [] at hopt
        have hinv := optLoop_done_inv e fuel 0 { o0 with running := true } o2
          (by rw [show ({ o0 with running := true } : Opt).round = o0.round from rfl, h0])
          (by rw [show ({ o0 with running := true } : Opt).round = o0.round from rfl,
                show ({ o0 with running := true } : Opt).rounds = o0.rounds from rfl, h0]
              exact hr)
          hl
        cases hm : (if ({ o2 with running := false } : Opt).minimize
            then gpMinimum ({ o2 with running := false } : Opt).gp
            else gpMaximum ({ o2 with running := false } : Opt).gp) with
        | none => rw [hm] at hopt; simp at hopt
        | some xy =>
            rw [hm] at hopt
            simp only [Prod.mk.injEq] at hopt
            have ho1 : o1 = { o2 with running := false } := hopt.2.symm
            subst ho1
            have h2err : o2.explorationErr = none := herr
            have h2round : o2.round = o2.rounds := hinv.2.2.2 h2err
            calc ({ o2 with running := false } : Opt).round
                = o2.rounds := h2round
              _ = o0.rounds := hinv.1

/-- C7, witness: a one-round run (budget 1, one random round) with a
trivial environment completes normally and ends with the counter equal
to the budget. -/
theorem c7_round_accounting_witness :
    (optimize envW 2 (withRounds 1 (withRandomRounds 1 (newOpt oracleOK [0])))).2.round
      = (withRounds 1 (withRandomRounds 1 (newOpt oracleOK [0]))).rounds := by
  refine c7_round_accounting.2 envW 2
    (withRounds 1 (withRandomRounds 1 (newOpt oracleOK [0])))
    [((0 : ℕ), F.fin 1)] (F.fin 2)
    (optimize envW 2 (withRounds 1 (withRandomRounds 1 (newOpt oracleOK [0])))).2
    rfl (by decide) rfl ?_ rfl
  rfl

/-- C8: a `Next` call made during warm-up (`round < randomRounds`,
below the budget, no sticky error) returns a sampled point and
advances the counter by one; it is flagged parallel exactly when the
incremented counter has not yet reached `randomRounds`, so the final
random round is flagged sequential. -/
theorem c8_warmup_parallel (e : Env) (t : ℕ) (o : Opt)
    (herr : o.explorationErr = none) (hrr : o.round < o.randomRounds)
    (hr : o.round < o.rounds) :
    (next e t o).1.1 = some (mkMap o.params (e.sample t)) ∧
    (next e t o).2 = { o with round := o.round + 1 } ∧
    ((next e t o).1.2.1 = true ↔ o.round + 1 ≠ o.randomRounds) := by
  unfold next
  rw [if_neg (by rw [not_or, not_le]; exact ⟨hr, by simp [herr]⟩), if_pos hrr]
  refine ⟨rfl, rfl, ?_⟩
  simp

/-- C8, witness: with two random rounds configured, the first warm-up
call is parallel and increments the counter. -/
theorem c8_warmup_parallel_witness :
    (next envW 0 (withRandomRounds 2 (newOpt oracleOK [0]))).1.1
        = some (mkMap [0] [.fin 1]) ∧
    (next envW 0 (withRandomRounds 2 (newOpt oracleOK [0]))).2
        = { withRandomRounds 2 (newOpt oracleOK [0]) with round := 0 + 1 } ∧
    ((next envW 0 (withRandomRounds 2 (newOpt oracleOK [0]))).1.2.1 = true ↔
      (0 : ℤ) + 1 ≠ 2) :=
  c8_warmup_parallel envW 0 (withRandomRounds 2 (newOpt oracleOK [0]))
    rfl (by decide) (by decide)

/-!
Claim C9.
-/

/-- C9: `GP.Minimum` and `GP.Maximum` panic on an empty observation set
(the extreme-index lookup of gonum panics on an empty slice, modelled
as `none`), and `Optimize` calls them with no emptiness check during
final extraction, so a run configured with `WithRounds(0)` — which logs
no observation — panics instead of returning a result or an error. -/
theorem c9_empty_minimum_panics :
    (∀ g : GP, g.outputs = [] → gpMinimum g = none ∧ gpMaximum g = none) ∧
    (∀ (or : Oracle) (e : Env) (ps : List ℕ) (fuel : ℕ),
      1 ≤ fuel → e.stop 0 = false →
      (optimize e fuel (withRounds 0 (newOpt or ps))).1 = .panicked) := by
  constructor
  · intro g h
    constructor <;> simp [gpMinimum, gpMaximum, h, minIdx, maxIdx]
  · intro or e ps fuel hfuel hstop
    obtain ⟨f, rfl⟩ : ∃ f, fuel = f + 1 := ⟨fuel - 1, by omega⟩
    unfold optimize optLoop
    rw [hstop]
    rfl

/-- C9, witness: the empty-GP panic and the `WithRounds(0)` run panic
at concrete inputs. -/
theorem c9_empty_minimum_panics_witness :
    (gpMinimum (gpNew covConst (.fin 0)) = none ∧
      gpMaximum (gpNew covConst (.fin 0)) = none) ∧
    (optimize envW 1 (withRounds 0 (newOpt oracleOK [0]))).1 = .panicked :=
  ⟨c9_empty_minimum_panics.1 (gpNew covConst (.fin 0)) rfl,
    c9_empty_minimum_panics.2 oracleOK envW [0] 1 (by decide) rfl⟩

/-!
Claim C10.
-/

/-- Pointwise-equal functions map one list to equal lists. -/
lemma map_congr_mem {α β : Type} {f g : α → β} :
    ∀ l : List α, (∀ a ∈ l, f a = g a) → l.map f = l.map g := by
  intro l
  induction l with
  | nil => intro; rfl
  | cons x xs ih =>
      intro h
      simp only [List.map_cons]
      rw [h x (by simp), ih (fun a ha => h a (by simp [ha]))]

/-- C10: `Log(x, y)` appends to the GP the vector built by indexing the
supplied map at each controller parameter in construction order; a
parameter missing from the map silently contributes the zero value 0;
and two maps that agree on the controller's parameters produce the same
vector, so keys outside the parameter list are ignored. -/
theorem c10_log_vector (o : Opt) (x : List (ℕ × F)) (y : F) :
    (logObs o x y).gp.inputs = o.gp.inputs ++ [o.params.map (lookup0 x)] ∧
    (logObs o x y).gp.outputs = o.gp.outputs ++ [y] ∧
    (logObs o x y).gp.dirty = true ∧
    (∀ p, lookupP p x = none → lookup0 x p = .fin 0) ∧
    (∀ x2, (∀ p, p ∈ o.params → lookupP p x = lookupP p x2) →
      o.params.map (lookup0 x) = o.params.map (lookup0 x2)) := by
  refine ⟨rfl, rfl, rfl, fun p hp => by simp [lookup0, hp], fun x2 hagr => ?_⟩
  exact map_congr_mem o.params (fun p hp => by simp [lookup0, hagr p hp])

/-- C10, witness: with parameters [0, 1], a map holding key 0 and the
foreign key 7 yields coordinate 0 for the missing parameter 1, and
dropping the foreign key leaves the built vector unchanged. -/
theorem c10_log_vector_witness :
    lookup0 [((0 : ℕ), F.fin 3), (7, F.fin 9)] 1 = .fin 0 ∧
    [(0 : ℕ), 1].map (lookup0 [((0 : ℕ), F.fin 3), (7, F.fin 9)]) =
      [(0 : ℕ), 1].map (lookup0 [((0 : ℕ), F.fin 3)]) := by
  have h := c10_log_vector (newOpt oracleOK [0, 1])
    [((0 : ℕ), F.fin 3), (7, F.fin 9)] (F.fin 5)
  exact ⟨h.2.2.2.1 1 rfl, h.2.2.2.2 [((0 : ℕ), F.fin 3)] (by decide)⟩

end GoBayesopt
